import Mathlib

/-!
Shallow embedding of the ommp terminal audio player's core: the application
reducer (`src/app/mod.rs`), its state (`src/app/state.rs`), the library
snapshot remap (`App::replace_library`), the playback worker's loop
(`src/audio/player.rs`) and the audio-event-to-action translation in
`src/main.rs` (`run_app`).

Modelling conventions:
- `PathBuf` is modelled as `String`; paths are used only as identity keys.
- `f64`/`f32` seconds and volumes are modelled as `ℚ` (the code does only
  comparisons, clamping and addition on them).
- `engine.send(cmd)` is modelled by returning the list of commands sent, in
  order, alongside the new state (the `Option<AudioEngine>` is taken to be
  present; when absent the source skips the send but performs the same state
  mutation).
- `rand::thread_rng().gen_range(0..len)` in the shuffle branch of `play_next`
  is modelled by a `rand : Nat` oracle argument reduced as `rand % len`.
- Rust panics on out-of-range `Vec` indexing have no Lean counterpart; those
  lookups are modelled with `List.getD` and a default track, and theorems
  carry validity hypotheses where the distinction could matter.
-/

/-- Filesystem path, the identity key of a track (`PathBuf` in the source). -/
abbrev TrackPath := String

/-- `Track` record from `src/library/track.rs`. Metadata fields are carried
verbatim; only `path` and `duration` are consulted by the embedded core. -/
structure Track where
  path : TrackPath
  title : String
  artist : String
  album : String
  album_artist : String
  genre : String
  track_number : Option Nat
  duration : ℚ
  bitrate : Option Nat
  lyrics : Option String
deriving DecidableEq, Repr

/-- Default track used where the source would panic on an invalid index. -/
def default_track : Track :=
  { path := "", title := "", artist := "", album := "", album_artist := ""
    genre := "", track_number := none, duration := 0, bitrate := none
    lyrics := none }

/-- `Library` from `src/library/mod.rs`: the snapshot is its ordered track list. -/
structure Library where
  tracks : List Track
deriving DecidableEq, Repr

/-- `SyncState` from `src/app/state.rs`. -/
inductive SyncState where
  | Idle
  | Scanning
deriving DecidableEq, Repr

/-- `PlayState` from `src/app/state.rs`. -/
inductive PlayState where
  | Playing
  | Paused
  | Stopped
deriving DecidableEq, Repr

/-- `RepeatMode` from `src/app/state.rs` (`repeat` is a Lean keyword, so the
field holding it is named `repeat_mode`). -/
inductive RepeatMode where
  | Off
  | All
  | One
deriving DecidableEq, Repr

/-- `PlaybackState` from `src/app/state.rs`. -/
structure PlaybackState where
  state : PlayState
  position_secs : ℚ
  duration_secs : ℚ
  volume : ℚ
  shuffle : Bool
  repeat_mode : RepeatMode
deriving DecidableEq, Repr

/-- `QueueState` from `src/app/state.rs`: indices into the current snapshot. -/
structure QueueState where
  tracks : List Nat
  current_index : Option Nat
  selected_index : Nat
  scroll_offset : Nat
deriving DecidableEq, Repr

/-- `Playlist` from `src/app/state.rs`. -/
structure Playlist where
  name : String
  tracks : List Nat
deriving DecidableEq, Repr

/-- The reducer-owned state of `App` (`src/app/mod.rs`), restricted to the
fields the playback/queue/remap core reads or writes. UI-focus fields
(`tab`, `focus`, search state, `music_dir`, `should_quit`) are not consulted
by any embedded operation and are omitted. -/
structure App where
  playback : PlaybackState
  queue : QueueState
  library : Library
  playlists : List Playlist
  track_just_changed : Bool
  sync_state : SyncState
deriving DecidableEq, Repr

/-- `PlayerCommand` from `src/audio/player.rs`. -/
inductive PlayerCommand where
  | Play (path : TrackPath)
  | Pause
  | Resume
  | Stop
  | SetVolume (vol : ℚ)
  | Seek (secs : ℚ)
deriving DecidableEq, Repr

/-- `AudioEvent` from `src/event/mod.rs` as emitted by the playback worker. -/
inductive AudioEvent where
  | Playing
  | Paused
  | Stopped
  | TrackFinished
  | TrackError (msg : String)
  | PositionUpdate (position_secs : ℚ) (duration_secs : ℚ)
deriving DecidableEq, Repr

/-- `AppAction` from `src/app/mod.rs`, restricted to the playback/queue core
(UI-focus, playlist-edit and library-sync actions touch no embedded state or
spawn threads and are omitted). -/
inductive AppAction where
  | PlayTrack (track_idx : Nat)
  | PauseResume
  | NextTrack
  | PrevTrack
  | SetVolume (vol : ℚ)
  | VolumeUp
  | VolumeDown
  | Seek (secs : ℚ)
  | SeekForward
  | SeekBackward
  | AddToQueue (track_indices : List Nat)
  | ClearQueue
  | RemoveFromQueue (idx : Nat)
  | PlayQueueIndex (idx : Nat)
  | UpdatePosition (position_secs : ℚ) (duration_secs : ℚ)
  | TrackFinished
  | SetQueueSelection (idx : Nat)
deriving DecidableEq, Repr

/-- The path-to-new-index map of `App::replace_library`:
`new_lib.tracks.iter().enumerate().map(|(i, t)| (t.path.clone(), i)).collect()`
into a `HashMap`. Insertion overwrites, so a duplicated path maps to the
index of its last occurrence; `path_map tracks p` is that lookup. -/
def path_map : List Track → TrackPath → Option Nat
  | [], _ => none
  | t :: ts, p =>
    match path_map ts p with
    | some j => some (j + 1)
    | none => if t.path = p then some 0 else none

/-- `Iterator::position(|&idx| idx == target)` on a list of indices. -/
def position (target : Nat) : List Nat → Option Nat
  | [] => none
  | x :: xs => if x = target then some 0 else (position target xs).map (· + 1)

/-- The per-collection remap step of `App::replace_library`: each old index is
resolved to its track in the old snapshot, then to that path's index in the
new snapshot; entries whose path is gone are dropped (`filter_map`). -/
def remap_indices (old_tracks new_tracks : List Track) (idxs : List Nat) : List Nat :=
  idxs.filterMap (fun old_idx => (old_tracks[old_idx]?).bind (fun t => path_map new_tracks t.path))

/-- `App::replace_library` (`src/app/mod.rs`). The search-results refresh
(step touching only the omitted search fields) has no counterpart in the
embedded state; every queue/playlist/cursor mutation is carried verbatim.
The source sends no command to the playback worker here, hence the empty
command list. -/
def replace_library (a : App) (new_lib : Library) : App × List PlayerCommand :=
  let playing_path : Option TrackPath :=
    ((a.queue.current_index.bind (fun qi => a.queue.tracks[qi]?)).bind
      (fun ti => a.library.tracks[ti]?)).map Track.path
  let new_queue_tracks := remap_indices a.library.tracks new_lib.tracks a.queue.tracks
  let new_current := playing_path.bind (fun pp =>
    (path_map new_lib.tracks pp).bind (fun new_ti => position new_ti new_queue_tracks))
  ({ a with
      queue :=
        { tracks := new_queue_tracks
          current_index := new_current
          selected_index := min a.queue.selected_index (new_queue_tracks.length - 1)
          scroll_offset := min a.queue.scroll_offset (new_queue_tracks.length - 1) }
      playlists := a.playlists.map (fun pl =>
        { pl with tracks := remap_indices a.library.tracks new_lib.tracks pl.tracks })
      library := new_lib
      sync_state := SyncState.Idle }, [])

/-- The `AppAction::PlayTrack` arm of `App::handle_action`: guarded by
`track_idx < self.library.tracks.len()`, sends `Play(path)` and resets the
playback fields. -/
def play_track (a : App) (track_idx : Nat) : App × List PlayerCommand :=
  if track_idx < a.library.tracks.length then
    let t := a.library.tracks.getD track_idx default_track
    ({ a with
        playback := { a.playback with
          state := PlayState.Playing, position_secs := 0, duration_secs := t.duration }
        track_just_changed := true },
     [PlayerCommand.Play t.path])
  else (a, [])

/-- The `AppAction::Seek` arm: `secs.clamp(0.0, duration_secs)` (for
`0 ≤ duration_secs`, `f64::clamp` is min-after-max), sent to the worker and
stored as the position. -/
def seek (a : App) (secs : ℚ) : App × List PlayerCommand :=
  let clamped := min (max secs 0) a.playback.duration_secs
  ({ a with playback := { a.playback with position_secs := clamped } },
   [PlayerCommand.Seek clamped])

/-- The `AppAction::SetVolume` arm: `vol.clamp(0.0, 1.0)`. -/
def set_volume (a : App) (vol : ℚ) : App × List PlayerCommand :=
  let v := min (max vol 0) 1
  ({ a with playback := { a.playback with volume := v } },
   [PlayerCommand.SetVolume v])

/-- The `AppAction::RemoveFromQueue` arm: out-of-range indices are ignored;
otherwise the entry is removed and `current_index` adjusted exactly as in the
source (`len` in the guard `*ci >= len` is the length after removal). -/
def remove_from_queue (a : App) (idx : Nat) : App × List PlayerCommand :=
  if idx < a.queue.tracks.length then
    let new_tracks := a.queue.tracks.eraseIdx idx
    let new_current :=
      if new_tracks.isEmpty then none
      else
        match a.queue.current_index with
        | some ci =>
          if idx < ci then some (ci - 1)
          else if idx = ci ∧ new_tracks.length ≤ ci then some (new_tracks.length - 1)
          else some ci
        | none => none
    ({ a with queue := { a.queue with tracks := new_tracks, current_index := new_current } },
     [])
  else (a, [])

/-- `App::play_next` (`src/app/mod.rs`). `rand` models the value drawn by
`rng.gen_range(0..len)` in the shuffle branch, reduced modulo the queue
length. -/
def play_next (rand : Nat) (a : App) : App × List PlayerCommand :=
  if a.queue.tracks.isEmpty then (a, [])
  else
    match a.playback.repeat_mode with
    | RepeatMode.One =>
      match a.queue.current_index with
      | some idx =>
        let track_idx := a.queue.tracks.getD idx 0
        let t := a.library.tracks.getD track_idx default_track
        ({ a with
            playback := { a.playback with
              state := PlayState.Playing, position_secs := 0, duration_secs := t.duration }
            track_just_changed := true },
         [PlayerCommand.Play t.path])
      | none => (a, [])
    | _ =>
      let next : Option Nat :=
        if a.playback.shuffle then
          some (rand % a.queue.tracks.length)
        else
          match a.queue.current_index with
          | some idx =>
            if idx + 1 < a.queue.tracks.length then some (idx + 1)
            else if a.playback.repeat_mode = RepeatMode.All then some 0
            else none
          | none => some 0
      match next with
      | some next_idx =>
        let track_idx := a.queue.tracks.getD next_idx 0
        let t := a.library.tracks.getD track_idx default_track
        ({ a with
            queue := { a.queue with current_index := some next_idx }
            playback := { a.playback with
              state := PlayState.Playing, position_secs := 0, duration_secs := t.duration }
            track_just_changed := true },
         [PlayerCommand.Play t.path])
      | none =>
        ({ a with playback := { a.playback with
            state := PlayState.Stopped, position_secs := 0 } }, [])

/-- `App::play_prev` (`src/app/mod.rs`). The restart-in-place branch fires
only when more than 3 seconds in AND a current entry exists; otherwise the
step-back computation runs (which yields position 0 even when
`current_index` is `None`). -/
def play_prev (a : App) : App × List PlayerCommand :=
  if a.queue.tracks.isEmpty then (a, [])
  else
    match (if (3 : ℚ) < a.playback.position_secs then a.queue.current_index else none) with
    | some idx =>
      let track_idx := a.queue.tracks.getD idx 0
      let t := a.library.tracks.getD track_idx default_track
      ({ a with
          playback := { a.playback with position_secs := 0, duration_secs := t.duration }
          track_just_changed := true },
       [PlayerCommand.Play t.path])
    | none =>
      let prev : Option Nat :=
        match a.queue.current_index with
        | some idx =>
          if 0 < idx then some (idx - 1)
          else if a.playback.repeat_mode = RepeatMode.All then
            some (a.queue.tracks.length - 1)
          else some 0
        | none => some 0
      match prev with
      | some prev_idx =>
        let track_idx := a.queue.tracks.getD prev_idx 0
        let t := a.library.tracks.getD track_idx default_track
        ({ a with
            queue := { a.queue with current_index := some prev_idx }
            playback := { a.playback with
              state := PlayState.Playing, position_secs := 0, duration_secs := t.duration }
            track_just_changed := true },
         [PlayerCommand.Play t.path])
      | none => (a, [])

/-- `App::handle_action` (`src/app/mod.rs`), restricted to the embedded
actions. `rand` is threaded to `play_next` for its shuffle branch. -/
def handle_action (rand : Nat) (a : App) : AppAction → App × List PlayerCommand
  | AppAction.PlayTrack track_idx => play_track a track_idx
  | AppAction.PauseResume =>
    match a.playback.state with
    | PlayState.Playing =>
      ({ a with playback := { a.playback with state := PlayState.Paused } },
       [PlayerCommand.Pause])
    | PlayState.Paused =>
      ({ a with playback := { a.playback with state := PlayState.Playing } },
       [PlayerCommand.Resume])
    | PlayState.Stopped =>
      match a.queue.current_index with
      | some idx =>
        match a.queue.tracks[idx]? with
        | some track_idx => play_track a track_idx
        | none => (a, [])
      | none => (a, [])
  | AppAction.NextTrack => play_next rand a
  | AppAction.PrevTrack => play_prev a
  | AppAction.SetVolume vol => set_volume a vol
  | AppAction.VolumeUp => set_volume a (min (a.playback.volume + 5/100) 1)
  | AppAction.VolumeDown => set_volume a (max (a.playback.volume - 5/100) 0)
  | AppAction.Seek secs => seek a secs
  | AppAction.SeekForward => seek a (a.playback.position_secs + 5)
  | AppAction.SeekBackward => seek a (a.playback.position_secs - 5)
  | AppAction.AddToQueue track_indices =>
    ({ a with queue :=
        { tracks := track_indices
          current_index := if track_indices.isEmpty then none else some 0
          selected_index := 0
          scroll_offset := 0 } }, [])
  | AppAction.ClearQueue =>
    ({ a with queue :=
        { tracks := [], current_index := none, selected_index := 0, scroll_offset := 0 } },
     [])
  | AppAction.RemoveFromQueue idx => remove_from_queue a idx
  | AppAction.PlayQueueIndex idx =>
    if idx < a.queue.tracks.length then
      let a2 := { a with queue := { a.queue with current_index := some idx } }
      play_track a2 (a.queue.tracks.getD idx 0)
    else (a, [])
  | AppAction.UpdatePosition position_secs duration_secs =>
    ({ a with playback := { a.playback with
        position_secs := position_secs
        duration_secs := if 0 < duration_secs then duration_secs
                         else a.playback.duration_secs } }, [])
  | AppAction.TrackFinished => play_next rand a
  | AppAction.SetQueueSelection idx =>
    if idx < a.queue.tracks.length then
      ({ a with queue := { a.queue with selected_index := idx } }, [])
    else (a, [])

/-- Outcome of the decode chain `open_and_play` (`src/audio/player.rs`): a
playing sink with its duration, or the human-readable error string built
from the last failing stage. The chain itself is IO; theorems quantify over
it as an oracle. -/
inductive DecodeOutcome where
  | ok (duration : ℚ)
  | err (msg : String)
deriving DecidableEq, Repr

/-- Where the worker's outer (idle) loop goes after handling one command. -/
inductive IdleOutcome where
  | stay
  | enter_playback (duration : ℚ)
deriving DecidableEq, Repr

/-- One command handled by the idle loop of `player_thread`
(`src/audio/player.rs`): `Play` runs the decode chain and either enters
`run_playback_loop` (emitting `Playing`) or emits `TrackError` and stays
idle; `Stop` emits `Stopped`; every other command is ignored. The loop
itself never exits on a decode failure. -/
def player_idle_step (decode : TrackPath → DecodeOutcome) :
    PlayerCommand → List AudioEvent × IdleOutcome
  | PlayerCommand.Play path =>
    match decode path with
    | DecodeOutcome.ok dur => ([AudioEvent.Playing], IdleOutcome.enter_playback dur)
    | DecodeOutcome.err e => ([AudioEvent.TrackError e], IdleOutcome.stay)
  | PlayerCommand.Stop => ([AudioEvent.Stopped], IdleOutcome.stay)
  | _ => ([], IdleOutcome.stay)

/-- The mutable locals of `run_playback_loop` plus the sink observation the
position tick reads. `play_start` is whether the elapsed clock is running
(`play_start.is_some()` in the source); the elapsed reading itself is an
oracle argument of the tick. -/
structure PlaybackLoopState where
  sink_empty : Bool
  is_paused : Bool
  play_start : Bool
  accumulated_secs : ℚ
  duration : ℚ
deriving DecidableEq, Repr

/-- The `recv(position_ticker)` arm of `run_playback_loop`: the events it
emits, and whether the loop returns (back to the idle loop). `elapsed` is
`start.elapsed().as_secs_f64()` at the moment of the tick. -/
def position_tick (s : PlaybackLoopState) (elapsed : ℚ) : List AudioEvent × Bool :=
  if s.sink_empty && !s.is_paused then ([AudioEvent.TrackFinished], true)
  else
    let pos := if s.is_paused then s.accumulated_secs
      else if s.play_start then s.accumulated_secs + elapsed
      else s.accumulated_secs
    ([AudioEvent.PositionUpdate (min pos s.duration) s.duration], false)

/-- The tracked position as the claim describes it: accumulated plus
elapsed, or accumulated alone when paused (spec-side definition, compared
against `position_tick`). -/
def spec_tracked_position (s : PlaybackLoopState) (elapsed : ℚ) : ℚ :=
  if s.is_paused then s.accumulated_secs else s.accumulated_secs + elapsed

/-- The `Event::Audio` arm of the reducer loop in `src/main.rs` (`run_app`):
the direct state mutation it performs and the actions it queues for
`handle_action`. -/
def handle_audio_event (a : App) : AudioEvent → App × List AppAction
  | AudioEvent.PositionUpdate position_secs duration_secs =>
    (a, [AppAction.UpdatePosition position_secs duration_secs])
  | AudioEvent.TrackFinished => (a, [AppAction.TrackFinished])
  | AudioEvent.TrackError _ => (a, [AppAction.NextTrack])
  | AudioEvent.Playing =>
    ({ a with playback := { a.playback with state := PlayState.Playing } }, [])
  | AudioEvent.Paused =>
    ({ a with playback := { a.playback with state := PlayState.Paused } }, [])
  | AudioEvent.Stopped =>
    ({ a with playback := { a.playback with state := PlayState.Stopped } }, [])

/-- The paths a list of snapshot indices refers to, resolved through a given
snapshot; unresolvable indices contribute nothing. -/
def referenced_paths (tracks : List Track) (idxs : List Nat) : List TrackPath :=
  idxs.filterMap (fun i => (tracks[i]?).map Track.path)

theorem replace_library_queue_tracks (a : App) (new_lib : Library) :
    (replace_library a new_lib).1.queue.tracks
      = remap_indices a.library.tracks new_lib.tracks a.queue.tracks := rfl

theorem replace_library_playlists_eq (a : App) (new_lib : Library) :
    (replace_library a new_lib).1.playlists
      = a.playlists.map (fun pl =>
          { pl with tracks := remap_indices a.library.tracks new_lib.tracks pl.tracks }) := rfl

theorem replace_library_current (a : App) (new_lib : Library) :
    (replace_library a new_lib).1.queue.current_index
      = (((a.queue.current_index.bind (fun qi => a.queue.tracks[qi]?)).bind
            (fun ti => a.library.tracks[ti]?)).map Track.path).bind (fun pp =>
          (path_map new_lib.tracks pp).bind (fun new_ti =>
            position new_ti (remap_indices a.library.tracks new_lib.tracks a.queue.tracks))) := rfl

theorem replace_library_library (a : App) (new_lib : Library) :
    (replace_library a new_lib).1.library = new_lib := rfl

theorem replace_library_no_commands (a : App) (new_lib : Library) :
    (replace_library a new_lib).2 = [] := rfl

theorem path_map_lt {tracks : List Track} {p : TrackPath} {i : Nat}
    (h : path_map tracks p = some i) : i < tracks.length := by
  induction tracks generalizing i with
  | nil => simp [path_map] at h
  | cons t ts ih =>
    simp only [path_map] at h
    cases hts : path_map ts p with
    | some j =>
      rw [hts] at h
      cases h
      simpa using Nat.succ_lt_succ (ih hts)
    | none =>
      rw [hts] at h
      by_cases hp : t.path = p
      · rw [if_pos hp] at h
        injection h with h
        subst h
        simp
      · rw [if_neg hp] at h
        cases h

theorem path_map_get {tracks : List Track} {p : TrackPath} {i : Nat}
    (h : path_map tracks p = some i) :
    ∃ t, tracks[i]? = some t ∧ t.path = p := by
  induction tracks generalizing i with
  | nil => simp [path_map] at h
  | cons t ts ih =>
    simp only [path_map] at h
    cases hts : path_map ts p with
    | some j =>
      rw [hts] at h
      cases h
      obtain ⟨u, hu, hup⟩ := ih hts
      exact ⟨u, by simpa using hu, hup⟩
    | none =>
      rw [hts] at h
      by_cases hp : t.path = p
      · rw [if_pos hp] at h
        injection h with h
        subst h
        exact ⟨t, by simp, hp⟩
      · rw [if_neg hp] at h
        cases h

theorem path_map_isSome_iff {tracks : List Track} {p : TrackPath} :
    (path_map tracks p).isSome = true ↔ p ∈ tracks.map Track.path := by
  induction tracks with
  | nil => simp [path_map]
  | cons t ts ih =>
    simp only [path_map, List.map_cons, List.mem_cons]
    cases hts : path_map ts p with
    | some j =>
      simp only [Option.isSome_some, true_iff]
      right
      exact ih.mp (by simp [hts])
    | none =>
      have hts2 : p ∉ ts.map Track.path := by
        rw [← ih]
        simp [hts]
      by_cases hp : t.path = p
      · simp [hp]
      · rw [if_neg hp]
        simp only [Option.isSome_none, Bool.false_eq_true, false_iff]
        intro hmem
        rcases hmem with h1 | h2
        · exact hp h1.symm
        · exact hts2 h2

theorem position_lt {target : Nat} {l : List Nat} {i : Nat}
    (h : position target l = some i) : i < l.length := by
  induction l generalizing i with
  | nil => simp [position] at h
  | cons x xs ih =>
    simp only [position] at h
    by_cases hx : x = target
    · rw [if_pos hx] at h
      injection h with h
      subst h
      simp
    · rw [if_neg hx] at h
      cases hp : position target xs with
      | none => rw [hp] at h; cases h
      | some j =>
        rw [hp] at h
        injection h with h
        have h2 : j + 1 = i := h
        have := ih hp
        simp only [List.length_cons]
        omega

theorem remap_indices_lt {old_tracks new_tracks : List Track} {idxs : List Nat}
    {i : Nat} (h : i ∈ remap_indices old_tracks new_tracks idxs) :
    i < new_tracks.length := by
  simp only [remap_indices, List.mem_filterMap] at h
  obtain ⟨oi, _, hoi⟩ := h
  rcases Option.bind_eq_some.mp hoi with ⟨t, _, hpm⟩
  exact path_map_lt hpm

/-- C1: immediately after `replace_library`, every queue entry and every
playlist entry is a valid index into the new snapshot, and the
currently-playing position, when present, is a valid position in the new
queue. -/
theorem replace_library_indices_valid (a : App) (new_lib : Library) :
    ((replace_library a new_lib).1.queue.tracks.all
        (fun i => decide (i < new_lib.tracks.length)) = true)
  ∧ ((replace_library a new_lib).1.playlists.all
        (fun pl => pl.tracks.all (fun i => decide (i < new_lib.tracks.length))) = true)
  ∧ (Option.all (fun ci => decide (ci < (replace_library a new_lib).1.queue.tracks.length))
        (replace_library a new_lib).1.queue.current_index = true) := by
  refine ⟨?_, ?_, ?_⟩
  · rw [List.all_eq_true]
    intro i hi
    rw [replace_library_queue_tracks] at hi
    exact decide_eq_true (remap_indices_lt hi)
  · rw [List.all_eq_true]
    intro pl hpl
    rw [replace_library_playlists_eq, List.mem_map] at hpl
    obtain ⟨pl0, _, hpl0⟩ := hpl
    rw [List.all_eq_true]
    intro i hi
    rw [← hpl0] at hi
    simp only at hi
    exact decide_eq_true (remap_indices_lt hi)
  · rw [replace_library_current, replace_library_queue_tracks]
    cases hc : (((a.queue.current_index.bind (fun qi => a.queue.tracks[qi]?)).bind
        (fun ti => a.library.tracks[ti]?)).map Track.path).bind (fun pp =>
          (path_map new_lib.tracks pp).bind (fun new_ti =>
            position new_ti (remap_indices a.library.tracks new_lib.tracks a.queue.tracks))) with
    | none => simp
    | some ci =>
      rcases Option.bind_eq_some.mp hc with ⟨pp, _, hpp⟩
      rcases Option.bind_eq_some.mp hpp with ⟨new_ti, _, hpos⟩
      simp only [Option.all_some]
      exact decide_eq_true (position_lt hpos)

/-- Track fixture: a track whose only distinguishing data is its path and
duration, as in the scanner's output. -/
def mk_track (p : TrackPath) (dur : ℚ) : Track :=
  { default_track with path := p, duration := dur }

def trk_a : Track := mk_track "a" 120
def trk_b : Track := mk_track "b" 180
def trk_c : Track := mk_track "c" 60

/-- `App::new` state (fresh app, empty library, one default playlist). -/
def base_app : App :=
  { playback :=
      { state := PlayState.Stopped, position_secs := 0, duration_secs := 0
        volume := 8/10, shuffle := false, repeat_mode := RepeatMode.Off }
    queue := { tracks := [], current_index := none, selected_index := 0, scroll_offset := 0 }
    library := { tracks := [] }
    playlists := [{ name := "Bookmarks", tracks := [] }]
    track_just_changed := false
    sync_state := SyncState.Idle }

/-- C9: `AddToQueue(v)` replaces the queue contents with `v` (it does not
append), sets the playing position to the head of `v` when `v` is non-empty
and to `None` otherwise, and resets the selection cursor and scroll offset. -/
theorem add_to_queue_replaces (rand : Nat) (a : App) (v : List Nat) :
    (handle_action rand a (AppAction.AddToQueue v)).1.queue.tracks = v
  ∧ (handle_action rand a (AppAction.AddToQueue v)).1.queue.current_index
      = (if v.isEmpty then none else some 0)
  ∧ (handle_action rand a (AppAction.AddToQueue v)).1.queue.selected_index = 0
  ∧ (handle_action rand a (AppAction.AddToQueue v)).1.queue.scroll_offset = 0 :=
  ⟨rfl, rfl, rfl, rfl⟩

/-- C7: `Seek(s)` stores, and sends to the worker, `s` clamped to
`[0, duration_secs]`: the stored position and the sent command carry
`min (max s 0) duration_secs`, which lies in that closed interval. -/
theorem seek_clamps (rand : Nat) (a : App) (secs : ℚ)
    (hd : 0 ≤ a.playback.duration_secs) :
    (handle_action rand a (AppAction.Seek secs)).1.playback.position_secs
        = min (max secs 0) a.playback.duration_secs
  ∧ (handle_action rand a (AppAction.Seek secs)).2
        = [PlayerCommand.Seek (min (max secs 0) a.playback.duration_secs)]
  ∧ 0 ≤ min (max secs 0) a.playback.duration_secs
  ∧ min (max secs 0) a.playback.duration_secs ≤ a.playback.duration_secs := by
  refine ⟨rfl, rfl, ?_, min_le_right _ _⟩
  exact le_min (le_max_right secs 0) hd

def app_c7 : App :=
  { base_app with playback := { base_app.playback with duration_secs := 200 } }

/-- Witness for C7 at the spec scenario: duration 200, `Seek(-5)` yields
position 0 and `Seek(9999)` yields position 200. -/
theorem seek_clamps_witness :
    (0 : ℚ) ≤ app_c7.playback.duration_secs
  ∧ (handle_action 0 app_c7 (AppAction.Seek (-5))).1.playback.position_secs = 0
  ∧ (handle_action 0 app_c7 (AppAction.Seek 9999)).1.playback.position_secs = 200 := by
  refine ⟨by decide, ?_, ?_⟩
  · rw [(seek_clamps 0 app_c7 (-5) (by decide)).1]
    decide
  · rw [(seek_clamps 0 app_c7 9999 (by decide)).1]
    decide

/-- C8: when the decode chain fails for `Play(path)`, the worker emits one
`TrackError` event carrying the error message and stays in its idle loop
(it neither terminates nor enters playback), and the reducer loop translates
every `TrackError` event into the single `NextTrack` action, leaving the
app state untouched. -/
theorem track_error_recoverable (decode : TrackPath → DecodeOutcome)
    (path : TrackPath) (e : String) (a : App)
    (h : decode path = DecodeOutcome.err e) :
    player_idle_step decode (PlayerCommand.Play path)
        = ([AudioEvent.TrackError e], IdleOutcome.stay)
  ∧ handle_audio_event a (AudioEvent.TrackError e) = (a, [AppAction.NextTrack]) := by
  constructor
  · simp [player_idle_step, h]
  · rfl

def decode_fail : TrackPath → DecodeOutcome :=
  fun _ => DecodeOutcome.err "Probe: unsupported format"

/-- Witness for C8: a decode chain that always fails yields exactly one
`TrackError` and the reducer queues exactly `NextTrack` for it. -/
theorem track_error_recoverable_witness :
    decode_fail "x.m4a" = DecodeOutcome.err "Probe: unsupported format"
  ∧ (player_idle_step decode_fail (PlayerCommand.Play "x.m4a")
        = ([AudioEvent.TrackError "Probe: unsupported format"], IdleOutcome.stay)
     ∧ handle_audio_event base_app
          (AudioEvent.TrackError "Probe: unsupported format")
        = (base_app, [AppAction.NextTrack])) :=
  ⟨rfl, track_error_recoverable decode_fail "x.m4a" "Probe: unsupported format" base_app rfl⟩

/-- C5: on a position tick, if the sink is empty and playback is not paused
the worker emits exactly one `TrackFinished` and returns to the idle loop;
otherwise it emits one `PositionUpdate` whose position is the tracked
position (accumulated plus elapsed, or accumulated alone when paused)
clamped to never exceed the duration. The disjunctive hypothesis is the
loop invariant that the elapsed clock runs whenever playback is not
paused. -/
theorem position_tick_spec (s : PlaybackLoopState) (elapsed : ℚ)
    (hclock : s.play_start = true ∨ s.is_paused = true) :
    (s.sink_empty = true → s.is_paused = false →
        position_tick s elapsed = ([AudioEvent.TrackFinished], true))
  ∧ (s.sink_empty = false ∨ s.is_paused = true →
        position_tick s elapsed
          = ([AudioEvent.PositionUpdate
                (min (spec_tracked_position s elapsed) s.duration) s.duration], false)
      ∧ min (spec_tracked_position s elapsed) s.duration ≤ s.duration) := by
  constructor
  · intro hse hp
    simp [position_tick, hse, hp]
  · intro hcase
    refine ⟨?_, min_le_right _ _⟩
    cases hp : s.is_paused with
    | true => simp [position_tick, spec_tracked_position, hp]
    | false =>
      have hse : s.sink_empty = false := by
        rcases hcase with h | h
        · exact h
        · rw [hp] at h; cases h
      have hps : s.play_start = true := by
        rcases hclock with h | h
        · exact h
        · rw [hp] at h; cases h
      simp [position_tick, spec_tracked_position, hp, hse, hps]

def loop_c5 : PlaybackLoopState :=
  { sink_empty := false, is_paused := false, play_start := true
    accumulated_secs := 42, duration := 100 }

/-- Witness for C5: a running, non-empty sink 42s in with 70s elapsed against
a 100s duration reports position 100 (clamped), and the same state with an
empty sink finishes. -/
theorem position_tick_spec_witness :
    (loop_c5.play_start = true ∨ loop_c5.is_paused = true)
  ∧ (position_tick loop_c5 70
        = ([AudioEvent.PositionUpdate
              (min (spec_tracked_position loop_c5 70) loop_c5.duration)
              loop_c5.duration], false)
     ∧ min (spec_tracked_position loop_c5 70) loop_c5.duration ≤ loop_c5.duration)
  ∧ position_tick { loop_c5 with sink_empty := true } 70
        = ([AudioEvent.TrackFinished], true) :=
  ⟨Or.inl rfl,
   (position_tick_spec loop_c5 70 (Or.inl rfl)).2 (Or.inl rfl),
   (position_tick_spec { loop_c5 with sink_empty := true } 70 (Or.inl rfl)).1 rfl rfl⟩

/-- C4: `NextTrack` and `TrackFinished` both run `play_next`; with a
non-empty queue, shuffle off and a valid current position: under Repeat-One
the same position is replayed (current unchanged, position reset to 0);
otherwise the position advances by one, wraps to 0 under Repeat-All at the
end of the queue, and under Repeat-Off at the end the playback state becomes
Stopped with position 0. -/
theorem play_next_policy (rand : Nat) (a : App) (idx : Nat)
    (hne : a.queue.tracks.isEmpty = false)
    (hsh : a.playback.shuffle = false)
    (hc : a.queue.current_index = some idx)
    (hidx : idx < a.queue.tracks.length) :
    (handle_action rand a AppAction.NextTrack = play_next rand a
      ∧ handle_action rand a AppAction.TrackFinished = play_next rand a)
  ∧ (a.playback.repeat_mode = RepeatMode.One →
      (play_next rand a).1.queue.current_index = some idx
      ∧ (play_next rand a).1.playback.position_secs = 0
      ∧ (play_next rand a).1.playback.state = PlayState.Playing)
  ∧ (a.playback.repeat_mode ≠ RepeatMode.One → idx + 1 < a.queue.tracks.length →
      (play_next rand a).1.queue.current_index = some (idx + 1)
      ∧ (play_next rand a).1.playback.position_secs = 0
      ∧ (play_next rand a).1.playback.state = PlayState.Playing)
  ∧ (a.playback.repeat_mode = RepeatMode.All → a.queue.tracks.length ≤ idx + 1 →
      (play_next rand a).1.queue.current_index = some 0
      ∧ (play_next rand a).1.playback.position_secs = 0
      ∧ (play_next rand a).1.playback.state = PlayState.Playing)
  ∧ (a.playback.repeat_mode = RepeatMode.Off → a.queue.tracks.length ≤ idx + 1 →
      (play_next rand a).1.playback.state = PlayState.Stopped
      ∧ (play_next rand a).1.playback.position_secs = 0) := by
  refine ⟨⟨rfl, rfl⟩, ?_, ?_, ?_, ?_⟩
  · intro hOne
    simp [play_next, hne, hOne, hc]
  · intro hnOne hlt
    cases hrm : a.playback.repeat_mode with
    | One => exact absurd hrm hnOne
    | Off => simp [play_next, hne, hrm, hsh, hc, hlt]
    | All => simp [play_next, hne, hrm, hsh, hc, hlt]
  · intro hrm hge
    have hnlt : ¬ idx + 1 < a.queue.tracks.length := by omega
    simp [play_next, hne, hrm, hsh, hc, hnlt]
  · intro hrm hge
    have hnlt : ¬ idx + 1 < a.queue.tracks.length := by omega
    simp [play_next, hne, hrm, hsh, hc, hnlt]

def app_c4 : App :=
  { base_app with
      playback := { base_app.playback with
        state := PlayState.Playing, duration_secs := 120
        repeat_mode := RepeatMode.One }
      library := { tracks := [trk_a, trk_b, trk_c] }
      queue := { tracks := [0, 1, 2], current_index := some 0
                 selected_index := 0, scroll_offset := 0 } }

/-- Witness for C4 at the spec scenario: queue `[A,B,C]`, current `A`,
Repeat-One, `NextTrack` leaves the position at `A` and resets to 0. -/
theorem play_next_policy_witness :
    app_c4.queue.tracks.isEmpty = false
  ∧ app_c4.playback.shuffle = false
  ∧ app_c4.queue.current_index = some 0
  ∧ 0 < app_c4.queue.tracks.length
  ∧ ((play_next 0 app_c4).1.queue.current_index = some 0
     ∧ (play_next 0 app_c4).1.playback.position_secs = 0
     ∧ (play_next 0 app_c4).1.playback.state = PlayState.Playing) :=
  ⟨rfl, rfl, rfl, by decide,
   (play_next_policy 0 app_c4 0 rfl rfl rfl (by decide)).2.1 rfl⟩

/-- C6: `PrevTrack` runs `play_prev`; with a non-empty queue and a current
entry: more than 3 seconds in, the current entry is replayed from 0 with the
queue position unchanged; otherwise the position steps back by one, wrapping
to the last position under Repeat-All when at position 0 and clamping at 0
otherwise. -/
theorem play_prev_policy (rand : Nat) (a : App) (idx : Nat)
    (hne : a.queue.tracks.isEmpty = false)
    (hc : a.queue.current_index = some idx) :
    (handle_action rand a AppAction.PrevTrack = play_prev a)
  ∧ ((3 : ℚ) < a.playback.position_secs →
      (play_prev a).1.queue.current_index = some idx
      ∧ (play_prev a).1.playback.position_secs = 0)
  ∧ (¬ (3 : ℚ) < a.playback.position_secs → 0 < idx →
      (play_prev a).1.queue.current_index = some (idx - 1)
      ∧ (play_prev a).1.playback.position_secs = 0)
  ∧ (¬ (3 : ℚ) < a.playback.position_secs → idx = 0 →
      a.playback.repeat_mode = RepeatMode.All →
      (play_prev a).1.queue.current_index = some (a.queue.tracks.length - 1)
      ∧ (play_prev a).1.playback.position_secs = 0)
  ∧ (¬ (3 : ℚ) < a.playback.position_secs → idx = 0 →
      a.playback.repeat_mode ≠ RepeatMode.All →
      (play_prev a).1.queue.current_index = some 0
      ∧ (play_prev a).1.playback.position_secs = 0) := by
  refine ⟨rfl, ?_, ?_, ?_, ?_⟩
  · intro hpos
    simp [play_prev, hne, hpos, hc]
  · intro hpos hi
    simp [play_prev, hne, hpos, hc, hi]
  · intro hpos hi hrm
    subst hi
    simp [play_prev, hne, hpos, hc, hrm]
  · intro hpos hi hrm
    subst hi
    simp [play_prev, hne, hpos, hc, hrm]

def app_c6 : App :=
  { base_app with
      playback := { base_app.playback with
        state := PlayState.Playing, position_secs := 10, duration_secs := 180 }
      library := { tracks := [trk_a, trk_b] }
      queue := { tracks := [0, 1], current_index := some 1
                 selected_index := 0, scroll_offset := 0 } }

/-- Witness for C6 at the spec scenario: current `B` at 10s (more than 3s),
`PrevTrack` replays the same queue position from 0. -/
theorem play_prev_policy_witness :
    app_c6.queue.tracks.isEmpty = false
  ∧ app_c6.queue.current_index = some 1
  ∧ ((play_prev app_c6).1.queue.current_index = some 1
     ∧ (play_prev app_c6).1.playback.position_secs = 0) :=
  ⟨rfl, rfl, (play_prev_policy 0 app_c6 1 rfl rfl).2.1 (by decide)⟩

/-- C10: an out-of-range `RemoveFromQueue` leaves the state unchanged (and
sends nothing); an in-range one removes exactly that entry and adjusts
`current_index` as the source does (decrement when the removed index was
before it, clamp to the new last position when it would run past the end,
`None` when the queue empties), so a valid current position stays valid. -/
theorem remove_from_queue_spec (rand : Nat) (a : App) (idx : Nat) :
    (a.queue.tracks.length ≤ idx →
        handle_action rand a (AppAction.RemoveFromQueue idx) = (a, []))
  ∧ (idx < a.queue.tracks.length →
        (handle_action rand a (AppAction.RemoveFromQueue idx)).1.queue.tracks
            = a.queue.tracks.eraseIdx idx
      ∧ (∀ ci, a.queue.current_index = some ci →
          (handle_action rand a (AppAction.RemoveFromQueue idx)).1.queue.current_index
            = (if (a.queue.tracks.eraseIdx idx).isEmpty then none
               else if idx < ci then some (ci - 1)
               else if idx = ci ∧ (a.queue.tracks.eraseIdx idx).length ≤ ci then
                 some ((a.queue.tracks.eraseIdx idx).length - 1)
               else some ci))
      ∧ (∀ ci, a.queue.current_index = some ci → ci < a.queue.tracks.length →
          Option.all (fun c => decide (c < (a.queue.tracks.eraseIdx idx).length))
            (handle_action rand a (AppAction.RemoveFromQueue idx)).1.queue.current_index
            = true)) := by
  constructor
  · intro hge
    show remove_from_queue a idx = (a, [])
    rw [remove_from_queue, if_neg (by omega)]
  · intro hlt
    have hlen : (a.queue.tracks.eraseIdx idx).length = a.queue.tracks.length - 1 :=
      List.length_eraseIdx_of_lt hlt
    refine ⟨?_, ?_, ?_⟩
    · show (remove_from_queue a idx).1.queue.tracks = _
      rw [remove_from_queue, if_pos hlt]
    · intro ci hci
      show (remove_from_queue a idx).1.queue.current_index = _
      rw [remove_from_queue, if_pos hlt]
      simp only [hci]
    · intro ci hci hcilt
      show Option.all _ (remove_from_queue a idx).1.queue.current_index = true
      rw [remove_from_queue, if_pos hlt]
      simp only [hci]
      by_cases hemp : (a.queue.tracks.eraseIdx idx).isEmpty
      · simp [hemp]
      · have hpos : 0 < (a.queue.tracks.eraseIdx idx).length := by
          cases he : a.queue.tracks.eraseIdx idx with
          | nil => rw [he] at hemp; exact absurd rfl hemp
          | cons x xs => exact Nat.succ_pos _
        simp only [hemp, if_false]
        by_cases h1 : idx < ci
        · simp only [if_pos h1, Option.all_some]
          exact decide_eq_true (by omega)
        · simp only [if_neg h1]
          by_cases h2 : idx = ci ∧ (a.queue.tracks.eraseIdx idx).length ≤ ci
          · simp only [if_pos h2, Option.all_some]
            exact decide_eq_true (by omega)
          · simp only [if_neg h2, Option.all_some]
            have : ¬ (idx = ci) ∨ ¬ ((a.queue.tracks.eraseIdx idx).length ≤ ci) := by
              by_contra hcon
              push_neg at hcon
              exact h2 ⟨hcon.1, hcon.2⟩
            rcases this with h3 | h3
            · exact decide_eq_true (by omega)
            · exact decide_eq_true (by omega)

def app_c10 : App :=
  { base_app with
      library := { tracks := [trk_a, trk_b, trk_c] }
      queue := { tracks := [0, 1, 2], current_index := some 2
                 selected_index := 0, scroll_offset := 0 } }

/-- Witness for C10: removing the last entry while it is the current one
clamps the current position to the new last entry, which is still valid. -/
theorem remove_from_queue_spec_witness :
    2 < app_c10.queue.tracks.length
  ∧ (handle_action 0 app_c10 (AppAction.RemoveFromQueue 2)).1.queue.tracks
      = app_c10.queue.tracks.eraseIdx 2
  ∧ app_c10.queue.current_index = some 2
  ∧ Option.all (fun c => decide (c < (app_c10.queue.tracks.eraseIdx 2).length))
      (handle_action 0 app_c10 (AppAction.RemoveFromQueue 2)).1.queue.current_index
      = true :=
  ⟨by decide,
   ((remove_from_queue_spec 0 app_c10 2).2 (by decide)).1,
   rfl,
   ((remove_from_queue_spec 0 app_c10 2).2 (by decide)).2.2 2 rfl (by decide)⟩

theorem referenced_paths_remap (old_tracks new_tracks : List Track) (idxs : List Nat) :
    referenced_paths new_tracks (remap_indices old_tracks new_tracks idxs)
      = (referenced_paths old_tracks idxs).filter
          (fun p => (path_map new_tracks p).isSome) := by
  induction idxs with
  | nil => rfl
  | cons oi rest ih =>
    simp only [remap_indices, referenced_paths, List.filterMap_cons] at ih ⊢
    cases ho : old_tracks[oi]? with
    | none =>
      simp only [ho, Option.none_bind, Option.map_none']
      exact ih
    | some t =>
      simp only [ho, Option.some_bind, Option.map_some']
      cases hpm : path_map new_tracks t.path with
      | none =>
        simp only [hpm, List.filter_cons, Option.isSome_none, Bool.false_eq_true, if_false]
        exact ih
      | some j =>
        obtain ⟨u, hu, hup⟩ := path_map_get hpm
        simp only [hpm, List.filterMap_cons, hu, Option.map_some', List.filter_cons,
          Option.isSome_some, if_true, hup]
        exact congrArg (t.path :: ·) ih

theorem remap_referenced_eq (old_tracks new_tracks : List Track) (idxs : List Nat)
    (hsub : ∀ p, p ∈ old_tracks.map Track.path → p ∈ new_tracks.map Track.path) :
    referenced_paths new_tracks (remap_indices old_tracks new_tracks idxs)
      = referenced_paths old_tracks idxs := by
  rw [referenced_paths_remap]
  apply List.filter_eq_self.mpr
  intro p hp
  simp only [referenced_paths, List.mem_filterMap] at hp
  obtain ⟨i, _, hi⟩ := hp
  cases hg : old_tracks[i]? with
  | none => rw [hg] at hi; cases hi
  | some t =>
    rw [hg] at hi
    injection hi with hi
    have htm : t ∈ old_tracks := by
      obtain ⟨hlt, hget⟩ := List.getElem?_eq_some.mp hg
      rw [← hget]
      exact List.getElem_mem hlt
    have hmem : p ∈ old_tracks.map Track.path :=
      List.mem_map.mpr ⟨t, htm, hi⟩
    exact path_map_isSome_iff.mpr (hsub p hmem)

/-- C2: if the new snapshot has exactly the path-set of the old library, the
set of paths the queue's indices reference (resolved through the then-current
library) is the same before and after `replace_library`, stated as mutual
containment of the two referenced-path lists. -/
theorem replace_library_pathset_roundtrip (a : App) (new_lib : Library)
    (h1 : ((a.library.tracks.map Track.path).all
        (fun p => decide (p ∈ new_lib.tracks.map Track.path))) = true)
    (_h2 : ((new_lib.tracks.map Track.path).all
        (fun p => decide (p ∈ a.library.tracks.map Track.path))) = true) :
    ((referenced_paths new_lib.tracks (replace_library a new_lib).1.queue.tracks).all
        (fun p => decide (p ∈ referenced_paths a.library.tracks a.queue.tracks)) = true)
  ∧ ((referenced_paths a.library.tracks a.queue.tracks).all
        (fun p => decide (p ∈ referenced_paths new_lib.tracks
            (replace_library a new_lib).1.queue.tracks)) = true) := by
  have hsub : ∀ p, p ∈ a.library.tracks.map Track.path →
      p ∈ new_lib.tracks.map Track.path := by
    intro p hp
    exact of_decide_eq_true (List.all_eq_true.mp h1 p hp)
  have heq : referenced_paths new_lib.tracks (replace_library a new_lib).1.queue.tracks
      = referenced_paths a.library.tracks a.queue.tracks := by
    rw [replace_library_queue_tracks]
    exact remap_referenced_eq _ _ _ hsub
  rw [heq]
  constructor <;>
    (rw [List.all_eq_true]; intro p hp; exact decide_eq_true hp)

def app_c2 : App :=
  { base_app with
      library := { tracks := [trk_a, trk_b] }
      queue := { tracks := [0, 1], current_index := none
                 selected_index := 0, scroll_offset := 0 } }

def new_lib_c2 : Library := { tracks := [trk_b, trk_a] }

/-- Witness for C2: a reordered snapshot with the same two paths leaves the
referenced path-set of the queue unchanged. -/
theorem replace_library_pathset_roundtrip_witness :
    ((app_c2.library.tracks.map Track.path).all
        (fun p => decide (p ∈ new_lib_c2.tracks.map Track.path))) = true
  ∧ ((new_lib_c2.tracks.map Track.path).all
        (fun p => decide (p ∈ app_c2.library.tracks.map Track.path))) = true
  ∧ (((referenced_paths new_lib_c2.tracks
          (replace_library app_c2 new_lib_c2).1.queue.tracks).all
        (fun p => decide (p ∈ referenced_paths app_c2.library.tracks app_c2.queue.tracks)) = true)
     ∧ ((referenced_paths app_c2.library.tracks app_c2.queue.tracks).all
        (fun p => decide (p ∈ referenced_paths new_lib_c2.tracks
            (replace_library app_c2 new_lib_c2).1.queue.tracks)) = true)) :=
  ⟨by decide, by decide,
   replace_library_pathset_roundtrip app_c2 new_lib_c2 (by decide) (by decide)⟩

/-- C3: when the playing track's path is absent from the new snapshot,
`replace_library` clears `current_index`, keeps every queue entry whose path
survives (in original relative order, remapped: the after-remap referenced
paths are exactly the before-remap ones filtered by survival), and sends no
command to the playback worker. -/
theorem replace_library_playing_removed (a : App) (new_lib : Library)
    (qi ti : Nat) (tr : Track)
    (hq : a.queue.current_index = some qi)
    (ht : a.queue.tracks[qi]? = some ti)
    (htr : a.library.tracks[ti]? = some tr)
    (habs : path_map new_lib.tracks tr.path = none) :
    (replace_library a new_lib).1.queue.current_index = none
  ∧ referenced_paths new_lib.tracks (replace_library a new_lib).1.queue.tracks
      = (referenced_paths a.library.tracks a.queue.tracks).filter
          (fun p => (path_map new_lib.tracks p).isSome)
  ∧ (replace_library a new_lib).2 = [] := by
  refine ⟨?_, ?_, rfl⟩
  · rw [replace_library_current, hq]
    simp [ht, htr, habs]
  · rw [replace_library_queue_tracks]
    exact referenced_paths_remap _ _ _

def app_c3 : App :=
  { base_app with
      playback := { base_app.playback with state := PlayState.Playing, duration_secs := 120 }
      library := { tracks := [trk_a, trk_b] }
      queue := { tracks := [0, 1], current_index := some 0
                 selected_index := 0, scroll_offset := 0 } }

def new_lib_c3 : Library := { tracks := [trk_b] }

/-- Witness for C3: the playing track `a` is gone from the new snapshot; the
current position clears, the surviving entry `b` is retained, and nothing is
sent to the worker. -/
theorem replace_library_playing_removed_witness :
    app_c3.queue.current_index = some 0
  ∧ app_c3.queue.tracks[0]? = some 0
  ∧ app_c3.library.tracks[0]? = some trk_a
  ∧ path_map new_lib_c3.tracks trk_a.path = none
  ∧ ((replace_library app_c3 new_lib_c3).1.queue.current_index = none
     ∧ referenced_paths new_lib_c3.tracks (replace_library app_c3 new_lib_c3).1.queue.tracks
         = (referenced_paths app_c3.library.tracks app_c3.queue.tracks).filter
             (fun p => (path_map new_lib_c3.tracks p).isSome)
     ∧ (replace_library app_c3 new_lib_c3).2 = []) :=
  ⟨rfl, rfl, rfl, by decide,
   replace_library_playing_removed app_c3 new_lib_c3 0 0 trk_a rfl rfl rfl (by decide)⟩
